import Mathlib

/-!
Verification development for the instance-lifecycle / network-ACL core.

The Go source is embedded shallowly:
- Go `map[string]string` values are modelled as association lists
  (`Config`), with first-match lookup; `cfgSet`/`cfgDel` model map
  assignment and deletion.
- Go strings are modelled by Lean `String`; the Go standard-library
  helpers `strings.HasPrefix`/`strings.TrimPrefix` are modelled at
  character level (`goHasPfx`/`goTrimPfx`).
- `time.Time` values are modelled as `Int` seconds; the Go zero time is
  `Option.none`.
- Database and filesystem collaborators are abstracted into explicit
  environment records or into the returned data of the embedded
  functions.
-/

namespace Incus

/-- Character-level model of Go `strings.HasPrefix`. -/
def goHasPfx (s p : String) : Bool :=
  p.data.isPrefixOf s.data

/-- Character-level model of Go `strings.TrimPrefix`: drops the prefix when
present, otherwise returns the string unchanged. -/
def goTrimPfx (s p : String) : String :=
  if goHasPfx s p then ⟨s.data.drop p.data.length⟩ else s

/-- A Go `map[string]string`, modelled as an association list with unique
keys; lookup returns the first match. -/
abbrev Config := List (String × String)

/-- Map lookup (`m[k]` with the `ok` flag): first matching key wins. -/
def cfgGet (c : Config) (k : String) : Option String :=
  match c with
  | [] => none
  | kv :: rest => if kv.1 = k then some kv.2 else cfgGet rest k

/-- Map deletion `delete(m, k)`. -/
def cfgDel (c : Config) (k : String) : Config :=
  match c with
  | [] => []
  | kv :: rest => if kv.1 = k then cfgDel rest k else kv :: cfgDel rest k

/-- Map assignment `m[k] = v`. -/
def cfgSet (c : Config) (k v : String) : Config :=
  (k, v) :: cfgDel c k

/-- The keys of a map. -/
def cfgKeys (c : Config) : List String :=
  c.map (·.1)

theorem cfgGet_del_self (c : Config) (k : String) : cfgGet (cfgDel c k) k = none := by
  induction c with
  | nil => rfl
  | cons kv rest ih =>
    by_cases h : kv.1 = k
    · simpa [cfgDel, h] using ih
    · simpa [cfgDel, cfgGet, h] using ih

theorem cfgGet_del_ne (c : Config) (k k' : String) (h : k' ≠ k) :
    cfgGet (cfgDel c k) k' = cfgGet c k' := by
  induction c with
  | nil => rfl
  | cons kv rest ih =>
    by_cases hk : kv.1 = k
    · rw [cfgDel, if_pos hk, ih, cfgGet, if_neg (by rw [hk]; exact Ne.symm h)]
    · by_cases hk' : kv.1 = k'
      · rw [cfgDel, if_neg hk, cfgGet, if_pos hk', cfgGet, if_pos hk']
      · rw [cfgDel, if_neg hk, cfgGet, if_neg hk', cfgGet, if_neg hk', ih]

theorem cfgGet_set_self (c : Config) (k v : String) : cfgGet (cfgSet c k v) k = some v := by
  simp [cfgSet, cfgGet]

theorem cfgGet_set_ne (c : Config) (k v k' : String) (h : k' ≠ k) :
    cfgGet (cfgSet c k v) k' = cfgGet c k' := by
  simp [cfgSet, cfgGet, Ne.symm h, cfgGet_del_ne c k k' h]

/-!
## `common.VolatileSet` (driver_common.go)

`VolatileSet` first checks that every changed key carries the
`volatile.` prefix; only then does it touch the database and the two
in-memory config maps.  A key with an empty value is deleted from both
maps, a key with a non-empty value is written to both.
-/

/-- `internalInstance.ConfigVolatilePrefix`. -/
def configVolatilePfx : String := "volatile."

/-- One iteration of the apply-locally loop of `VolatileSet`. -/
def applyVolatileChange (c : Config) (kv : String × String) : Config :=
  if kv.2 = "" then cfgDel c kv.1 else cfgSet c kv.1 kv.2

/-- The apply-locally loop of `VolatileSet` over all changes. -/
def applyVolatileChanges (c : Config) (changes : List (String × String)) : Config :=
  changes.foldl applyVolatileChange c

/-- Result of `VolatileSet`: the error (if any), the updated `localConfig`
and `expandedConfig`, and the set of changes handed to the database
transaction (`none` when nothing was written to the DB). -/
structure VolatileSetResult where
  err : Option String
  localConfig : Config
  expandedConfig : Config
  dbChanges : Option (List (String × String))
deriving DecidableEq

/-- `common.VolatileSet`.  The database transaction is modelled by
recording which changes were handed to it. -/
def VolatileSet (volatileSetPersistDisable : Bool) (localConfig expandedConfig : Config)
    (changes : List (String × String)) : VolatileSetResult :=
  -- Quick check.
  if changes.any (fun kv => !(goHasPfx kv.1 configVolatilePfx)) then
    ⟨some "Only volatile keys can be modified with VolatileSet",
      localConfig, expandedConfig, none⟩
  else
    ⟨none,
      applyVolatileChanges localConfig changes,
      applyVolatileChanges expandedConfig changes,
      if volatileSetPersistDisable then none else some changes⟩

theorem applyVolatileChanges_get_notMem (c : Config) (changes : List (String × String))
    (k : String) (h : k ∉ changes.map (·.1)) :
    cfgGet (applyVolatileChanges c changes) k = cfgGet c k := by
  induction changes generalizing c with
  | nil => rfl
  | cons kv rest ih =>
    simp only [List.map_cons, List.mem_cons, not_or] at h
    rw [applyVolatileChanges, List.foldl_cons, ← applyVolatileChanges, ih _ h.2]
    unfold applyVolatileChange
    split
    · exact cfgGet_del_ne c kv.1 k (Ne.symm (by exact fun hh => h.1 hh.symm))
    · exact cfgGet_set_ne c kv.1 kv.2 k (by exact fun hh => h.1 hh)

theorem applyVolatileChanges_get_mem (c : Config) (changes : List (String × String))
    (k v : String) (hmem : (k, v) ∈ changes) (hnd : (changes.map (·.1)).Nodup) :
    cfgGet (applyVolatileChanges c changes) k = if v = "" then none else some v := by
  induction changes generalizing c with
  | nil => cases hmem
  | cons kv rest ih =>
    simp only [List.map_cons, List.nodup_cons] at hnd
    rcases List.mem_cons.mp hmem with hhd | htl
    · subst hhd
      rw [applyVolatileChanges, List.foldl_cons, ← applyVolatileChanges,
        applyVolatileChanges_get_notMem _ rest k hnd.1]
      unfold applyVolatileChange
      split
      · simp_all [cfgGet_del_self]
      · simp_all [cfgGet_set_self]
    · rw [applyVolatileChanges, List.foldl_cons, ← applyVolatileChanges]
      exact ih _ htl hnd.2

/-!
## `deviceVolatileGetFunc` / `deviceVolatileSetFunc` (driver_common.go)
-/

/-- The per-device volatile key prefix `volatile.<devName>.`. -/
def deviceVolatilePfx (devName : String) : String :=
  "volatile." ++ devName ++ "."

/-- The closure returned by `deviceVolatileGetFunc(devName)`: collects the
device's volatile keys from `localConfig` and strips the prefix. -/
def deviceVolatileGet (localConfig : Config) (devName : String) : Config :=
  match localConfig with
  | [] => []
  | kv :: rest =>
    if goHasPfx kv.1 (deviceVolatilePfx devName) then
      (goTrimPfx kv.1 (deviceVolatilePfx devName), kv.2) :: deviceVolatileGet rest devName
    else
      deviceVolatileGet rest devName

/-- The closure returned by `deviceVolatileSetFunc(devName)`: prefixes every
key of `save` with `volatile.<devName>.` and calls `VolatileSet`. -/
def deviceVolatileSet (volatileSetPersistDisable : Bool) (localConfig expandedConfig : Config)
    (devName : String) (save : List (String × String)) : VolatileSetResult :=
  VolatileSet volatileSetPersistDisable localConfig expandedConfig
    (save.map (fun kv => (deviceVolatilePfx devName ++ kv.1, kv.2)))

theorem goHasPfx_append (p t : String) : goHasPfx (p ++ t) p = true := by
  cases p with
  | mk pd =>
    cases t with
    | mk td =>
      simp [goHasPfx, String.append, List.isPrefixOf_iff_prefix]

theorem goTrimPfx_append (p t : String) : goTrimPfx (p ++ t) p = t := by
  cases p with
  | mk pd =>
    cases t with
    | mk td =>
      simp [goTrimPfx, goHasPfx_append, String.append]

theorem goHasPfx_eq_append (s p : String) (h : goHasPfx s p = true) :
    s = p ++ goTrimPfx s p := by
  cases s with
  | mk sd =>
    cases p with
    | mk pd =>
      simp only [goHasPfx, List.isPrefixOf_iff_prefix] at h
      rcases h with ⟨t, ht⟩
      subst ht
      rw [show (String.mk (pd ++ t)) = String.mk pd ++ String.mk t from rfl,
        goTrimPfx_append]

theorem string_append_left_cancel (p a b : String) (h : p ++ a = p ++ b) : a = b := by
  cases p with
  | mk pd =>
    cases a with
    | mk ad =>
      cases b with
      | mk bd =>
        have hd : pd ++ ad = pd ++ bd := congrArg String.data h
        exact congrArg String.mk (List.append_cancel_left hd)

/-- Looking a key up in the stripped per-device view is the same as looking
the prefixed key up in `localConfig`. -/
theorem cfgGet_deviceVolatileGet (c : Config) (devName k : String) :
    cfgGet (deviceVolatileGet c devName) k = cfgGet c (deviceVolatilePfx devName ++ k) := by
  induction c with
  | nil => rfl
  | cons kv rest ih =>
    by_cases hpfx : goHasPfx kv.1 (deviceVolatilePfx devName) = true
    · by_cases hk : goTrimPfx kv.1 (deviceVolatilePfx devName) = k
      · have heq : kv.1 = deviceVolatilePfx devName ++ k := by
          rw [goHasPfx_eq_append kv.1 _ hpfx, hk]
        rw [deviceVolatileGet, if_pos hpfx, cfgGet, if_pos hk, cfgGet, if_pos heq]
      · have hne : kv.1 ≠ deviceVolatilePfx devName ++ k := by
          intro he
          exact hk (by rw [he, goTrimPfx_append])
        rw [deviceVolatileGet, if_pos hpfx, cfgGet, if_neg hk, cfgGet, if_neg hne, ih]
    · have hne : kv.1 ≠ deviceVolatilePfx devName ++ k := by
        intro he
        rw [he] at hpfx
        exact hpfx (goHasPfx_append _ _)
      rw [deviceVolatileGet, if_neg hpfx, cfgGet, if_neg hne, ih]

/-!
## Automatic instance-name generation (`instancesPost`)

The Go loop starts with `i := 0` and repeats: `i++`; generate a random
two-word name; if the name is not taken, stop; if `i > 100`, fail.  The
random generator is modelled as a function `gen` from the attempt number
(starting at 1) to the generated name.  The loop counter `i` and the
remaining-iterations bound `left` are threaded so that `i + left = 101`
at each call reached from the top-level entry; the `left = 0` case is
never reached from `generateInstanceName` because the `i + 1 > 100`
branch fires first.
-/

/-- The body of the `for` loop generating a fresh instance name. -/
def autoNameAux (names : List String) (gen : Nat → String) (i : Nat) : Nat → Option String
  | 0 => none
  | left + 1 =>
    if ¬ names.contains (gen (i + 1)) then some (gen (i + 1))
    else if i + 1 > 100 then none
    else autoNameAux names gen (i + 1) left

/-- `instancesPost`: automatic name generation when `req.Name == ""`.
`names` is the list returned by `tx.GetInstanceNames` for the project;
the result is `none` when the loop gives up with
"Couldn't generate a new unique name after 100 tries". -/
def generateInstanceName (names : List String) (gen : Nat → String) : Option String :=
  autoNameAux names gen 0 101

/-!
## Evacuation checks in the instance create dispatcher (`instancesPost`)

`instancesPost` itself performs no evacuation check.  Each creator
checks on entry:
- `createFromImage`, `createFromNone`, `createFromCopy` reject whenever
  the server is clustered and the local member is evacuated;
- `createFromMigration` additionally exempts requests arriving over the
  cluster-internal protocol (`r.Context().Value(request.CtxProtocol) ==
  "cluster"`) and calls with `r == nil`;
- `createFromBackup` performs no evacuation check at all.

Only the routing and these entry checks are modelled; the body of each
creator is abstracted as `proceeds`.
-/

/-- Outcome of dispatching a create request, as far as the evacuation
checks are concerned. -/
inductive CreateResponse where
  | forbiddenEvacuated : CreateResponse
  | proceeds : CreateResponse
  | badRequestUnknownSource : String → CreateResponse
deriving DecidableEq

/-- The daemon state bits consulted by the evacuation checks. -/
structure DaemonState where
  serverClustered : Bool
  localNodeIsEvacuated : Bool

/-- An incoming create request, reduced to the fields the dispatcher's
routing and the evacuation checks consult. -/
structure CreateReq where
  contentTypeOctetStream : Bool
  sourceType : String
  protocolCluster : Bool

/-- Entry check of `createFromImage`. -/
def createFromImageEntry (st : DaemonState) : CreateResponse :=
  if st.serverClustered && st.localNodeIsEvacuated then .forbiddenEvacuated else .proceeds

/-- Entry check of `createFromNone`. -/
def createFromNoneEntry (st : DaemonState) : CreateResponse :=
  if st.serverClustered && st.localNodeIsEvacuated then .forbiddenEvacuated else .proceeds

/-- Entry check of `createFromCopy`. -/
def createFromCopyEntry (st : DaemonState) : CreateResponse :=
  if st.serverClustered && st.localNodeIsEvacuated then .forbiddenEvacuated else .proceeds

/-- Entry check of `createFromMigration`: cluster-internal requests and
`r == nil` calls are exempt. -/
def createFromMigrationEntry (st : DaemonState) (rNil protocolCluster : Bool) : CreateResponse :=
  if st.serverClustered && !rNil && !protocolCluster && st.localNodeIsEvacuated then
    .forbiddenEvacuated
  else
    .proceeds

/-- Entry of `createFromBackup`: no evacuation check is performed. -/
def createFromBackupEntry (_st : DaemonState) : CreateResponse :=
  .proceeds

/-- The routing of `instancesPost` onto the creator entry points: raw
octet-stream bodies go to `createFromBackup`, JSON requests are
dispatched on `req.Source.Type`.  Within the dispatcher `r` is never
nil. -/
def instancesPostDispatch (st : DaemonState) (req : CreateReq) : CreateResponse :=
  if req.contentTypeOctetStream then createFromBackupEntry st
  else if req.sourceType = "image" then createFromImageEntry st
  else if req.sourceType = "none" then createFromNoneEntry st
  else if req.sourceType = "migration" then createFromMigrationEntry st false req.protocolCluster
  else if req.sourceType = "copy" then createFromCopyEntry st
  else .badRequestUnknownSource req.sourceType

/-!
## Backup compression resolution (`backupCreate`)

`backupCreate` sets the backup's compression algorithm from the request
argument; when that is empty, it falls back to the project's
`backups.compression_algorithm` config key and then to the global
default.
-/

/-- The compression-detection block of `backupCreate`. -/
def backupCreateCompress (argsCompressionAlgorithm projectBackupsCompression
    globalBackupsCompression : String) : String :=
  if argsCompressionAlgorithm ≠ "" then
    argsCompressionAlgorithm
  else if projectBackupsCompression ≠ "" then
    projectBackupsCompression
  else
    globalBackupsCompression

/-!
## Network ACL rule validation (internal/server/network/acl)

The database collaborators are abstracted into `ACLEnv`: the ACL names
of the project (`tx.GetNetworkACLIDsByNames`) and the existing address
sets (`dbCluster.GetNetworkAddressSet`).  Go's `net.ParseIP` /
`net.ParseCIDR` and `validate.IsNetworkRange` are modelled by a
simplified character-level classifier covering dotted-quad IPv4 and
colon-separated IPv6 (no IPv4-embedded-in-IPv6 or zone forms).
-/

/-- Character-level model of Go `strings.Trim(s, "$")`: removes leading
and trailing `$` characters. -/
def goTrimDollar (s : String) : String :=
  ⟨((s.data.dropWhile (· == '$')).reverse.dropWhile (· == '$')).reverse⟩

/-- The splitter loop behind `goSplitChar`. -/
def goSplitCharAux (c : Char) : List Char → List Char → List String
  | [], acc => [⟨acc.reverse⟩]
  | x :: xs, acc =>
    if x = c then ⟨acc.reverse⟩ :: goSplitCharAux c xs []
    else goSplitCharAux c xs (x :: acc)

/-- Character-level model of Go `strings.Split` with a one-character
separator (`"" ↦ [""]`, separators at the ends produce empty parts). -/
def goSplitChar (c : Char) (s : String) : List String :=
  goSplitCharAux c s.data []

/-- Model of Go `strings.TrimSpace` (character level). -/
def goTrimSpace (s : String) : String :=
  ⟨((s.data.dropWhile Char.isWhitespace).reverse.dropWhile Char.isWhitespace).reverse⟩

/-- `util.SplitNTrimSpace(s, ",", -1, ignoreEmpty)`: split on commas and
trim each element; when `ignoreEmpty` is set, drop empty elements. -/
def splitNTrimSpace (s : String) (ignoreEmpty : Bool) : List String :=
  let parts := (goSplitChar ',' s).map goTrimSpace
  if ignoreEmpty then parts.filter (fun p => p != "") else parts

/-- The numeric value of a digit string (meaningful only when every
character is a decimal digit). -/
def digitsToNat : Nat → List Char → Nat
  | acc, [] => acc
  | acc, c :: cs => digitsToNat (acc * 10 + (c.toNat - 48)) cs

/-- Decimal value of a string of digits. -/
def goParseDigits (s : String) : Nat :=
  digitsToNat 0 s.data

/-- One decimal octet of a dotted-quad IPv4 address. -/
def validDecOctet (p : String) : Bool :=
  !p.data.isEmpty && p.data.all Char.isDigit && decide (goParseDigits p ≤ 255)

/-- Simplified model of `net.ParseIP` recognising an IPv4 address. -/
def isIPv4 (s : String) : Bool :=
  let parts := goSplitChar '.' s
  parts.length == 4 && parts.all validDecOctet

/-- A hexadecimal digit. -/
def isHexChar (c : Char) : Bool :=
  c.isDigit || (('a' ≤ c && c ≤ 'f') || ('A' ≤ c && c ≤ 'F'))

/-- Simplified model of `net.ParseIP` recognising an IPv6 address. -/
def isIPv6 (s : String) : Bool :=
  s.data.contains ':' &&
  (goSplitChar ':' s).all (fun g => g.length ≤ 4 && g.data.all isHexChar) &&
  (goSplitChar ':' s).length ≤ 9

/-- IP family of a plain address: `some 4`, `some 6`, or `none` when the
string is not an IP address (models `net.ParseIP` plus the `To4` family
test of `isNetworkAddress`). -/
def parseIPVersion (s : String) : Option Nat :=
  if isIPv4 s then some 4 else if isIPv6 s then some 6 else none

/-- The `isNetworkAddress` closure of `validateRuleSubjects`. -/
def isNetworkAddr (s : String) : Option Nat :=
  parseIPVersion s

/-- The `isNetworkAddressCIDR` closure of `validateRuleSubjects`. -/
def isNetworkAddrCIDR (s : String) : Option Nat :=
  match goSplitChar '/' s with
  | [ip, plen] =>
    match parseIPVersion ip with
    | some v =>
      if !plen.data.isEmpty && plen.data.all Char.isDigit &&
          decide (goParseDigits plen ≤ if v = 4 then 32 else 128) then
        some v
      else
        none
    | none => none
  | _ => none

/-- The `isNetworkRange` closure of `validateRuleSubjects`
(`validate.IsNetworkRange` requires two addresses of one family). -/
def isNetworkRangeVer (s : String) : Option Nat :=
  match goSplitChar '-' s with
  | [a, b] =>
    match parseIPVersion a, parseIPVersion b with
    | some va, some vb => if va = vb then some va else none
    | _, _ => none
  | _ => none

/-- The `checks` loop of `validateRuleSubjects`: the first classifier
that accepts the subject determines its IP family. -/
def subjectIPVersion (s : String) : Option Nat :=
  match isNetworkAddr s with
  | some v => some v
  | none =>
    match isNetworkAddrCIDR s with
    | some v => some v
    | none => isNetworkRangeVer s

/-- The database state consulted during subject validation. -/
structure ACLEnv where
  aclNames : List String
  addressSets : List String

/-- Aliases for the reserved subject `@internal` (deprecated `#` form
included). -/
def ruleSubjectInternalAliases : List String := ["@internal", "#internal"]

/-- Aliases for the reserved subject `@external` (deprecated `#` form
included). -/
def ruleSubjectExternalAliases : List String := ["@external", "#external"]

/-- The `validSubjectNames` list built by `validateRule`: reserved
subject aliases followed by the project's ACL names. -/
def validSubjectNames (env : ACLEnv) : List String :=
  ruleSubjectInternalAliases ++ ruleSubjectExternalAliases ++ env.aclNames

/-- Whether named subjects are allowed for this field/direction
combination: `Source` of an ingress rule or `Destination` of an egress
rule. -/
def allowSubjectNamesFor (fieldName direction : String) : Bool :=
  (fieldName == "Source" && direction == "ingress") ||
  (fieldName == "Destination" && direction == "egress")

/-- The `validSubject` closure of `validateRuleSubjects`: returns the
subject's IP family (`0` for a named subject) or an error. -/
def validSubject (env : ACLEnv) (fieldName direction subject : String) : Except String Nat :=
  match subjectIPVersion subject with
  | some v => .ok v
  | none =>
    if subject ∈ validSubjectNames env then
      if allowSubjectNamesFor fieldName direction then .ok 0
      else .error ("Named subjects not allowed in \"" ++ fieldName ++ "\" for \"" ++
        direction ++ "\" rules")
    else if goHasPfx subject "@" then
      if allowSubjectNamesFor fieldName direction then .ok 0
      else .error ("Named subjects not allowed in \"" ++ fieldName ++ "\" for \"" ++
        direction ++ "\" rules")
    else if goHasPfx subject "$" then
      if goTrimDollar subject ∈ env.addressSets then .ok 0
      else .error ("Failed getting network address set \"" ++ goTrimDollar subject ++
        "\" for subject validation")
    else
      .error ("Invalid subject \"" ++ subject ++ "\"")

/-- The subject loop of `validateRuleSubjects`, accumulating the
`hasName`/`hasIPv4`/`hasIPv6` flags. -/
def validateRuleSubjectsAux (env : ACLEnv) (fieldName direction : String) :
    List String → Bool → Bool → Bool → Except String (Bool × Bool × Bool)
  | [], hasName, has4, has6 => .ok (hasName, has4, has6)
  | s :: rest, hasName, has4, has6 =>
    match validSubject env fieldName direction s with
    | .error e => .error e
    | .ok ipVersion =>
      if ipVersion = 0 then validateRuleSubjectsAux env fieldName direction rest true has4 has6
      else if ipVersion = 4 then
        validateRuleSubjectsAux env fieldName direction rest hasName true has6
      else if ipVersion = 6 then
        validateRuleSubjectsAux env fieldName direction rest hasName has4 true
      else validateRuleSubjectsAux env fieldName direction rest hasName has4 has6

/-- `common.validateRuleSubjects`: validates each subject and reports
whether the list contains names, IPv4 and IPv6 addresses. -/
def validateRuleSubjects (env : ACLEnv) (fieldName direction : String)
    (subjects : List String) : Except String (Bool × Bool × Bool) :=
  validateRuleSubjectsAux env fieldName direction subjects false false false

/-- Model of Go `strings.Join(parts, ",")`. -/
def joinComma : List String → String
  | [] => ""
  | [s] => s
  | s :: rest => s ++ "," ++ joinComma rest

/-- `api.NetworkACLRule`, all fields strings as in the Go struct. -/
structure NetworkACLRule where
  action : String
  source : String
  destination : String
  protocol : String
  sourcePort : String
  destinationPort : String
  icmpType : String
  icmpCode : String
  description : String
  state : String
deriving DecidableEq

/-- `ValidActions`. -/
def ValidActions : List String := ["allow", "allow-stateless", "drop", "reject"]

/-- The valid rule states. -/
def validStates : List String := ["enabled", "disabled", "logged"]

/-- The valid protocols. -/
def validProtocols : List String := ["icmp4", "icmp6", "tcp", "udp"]

/-- Model of `validate.IsNetworkPortRange` for one port specification. -/
def isNetworkPortRange (s : String) : Bool :=
  let isPort := fun (p : String) =>
    !p.data.isEmpty && p.data.all Char.isDigit && decide (goParseDigits p ≤ 65535)
  match goSplitChar '-' s with
  | [p] => isPort p
  | [a, b] => isPort a && isPort b && decide (goParseDigits a ≤ goParseDigits b)
  | _ => false

/-- `common.validatePorts`. -/
def validatePorts : List String → Except String Unit
  | [] => .ok ()
  | p :: rest =>
    if isNetworkPortRange p then validatePorts rest
    else .error ("Invalid port range \"" ++ p ++ "\"")

/-- Model of `validate.IsUint8`. -/
def isUint8 (s : String) : Bool :=
  !s.data.isEmpty && s.data.all Char.isDigit && decide (goParseDigits s ≤ 255)

/-- Flags returned by `validateRuleSubjects`:
`(hasName, hasIPv4, hasIPv6)`. -/
abbrev SubjectFlags := Bool × Bool × Bool

/-- The cross-family conflict test of `validateRule` on the
source/destination subject flags. -/
def familyConflict (src dst : SubjectFlags) : Bool :=
  (src.2.1 && !dst.2.1 && !dst.1) || (dst.2.1 && !src.2.1 && !src.1) ||
  (src.2.2 && !dst.2.2 && !dst.1) || (dst.2.2 && !src.2.2 && !src.1)

/-- The first half of `common.validateRule`: the Action and State
checks, subject validation for Source and Destination, and the
cross-family conflict check; returns the two flag triples. -/
def validateRulePreamble (env : ACLEnv) (direction : String) (rule : NetworkACLRule) :
    Except String (SubjectFlags × SubjectFlags) :=
  if rule.action ∉ ValidActions then
    .error "Action must be one of: allow, allow-stateless, drop, reject"
  else if rule.state ∉ validStates then
    .error "State must be one of: enabled, disabled, logged"
  else
    match (if rule.source ≠ "" then
        validateRuleSubjects env "Source" direction (splitNTrimSpace rule.source false)
      else .ok (false, false, false)) with
    | .error e => .error ("Invalid Source: " ++ e)
    | .ok src =>
      match (if rule.destination ≠ "" then
          validateRuleSubjects env "Destination" direction
            (splitNTrimSpace rule.destination false)
        else .ok (false, false, false)) with
      | .error e => .error ("Invalid Destination: " ++ e)
      | .ok dst =>
        if rule.source ≠ "" ∧ rule.destination ≠ "" ∧ familyConflict src dst then
          .error "Conflicting IP family types used for Source and Destination"
        else
          .ok (src, dst)

/-- The second half of `common.validateRule`: the Protocol check and the
protocol-dependent field checks. -/
def validateRuleProtocol (rule : NetworkACLRule) (src dst : SubjectFlags) :
    Except String Unit :=
  if rule.protocol ≠ "" ∧ rule.protocol ∉ validProtocols then
    .error "Protocol must be one of: icmp4, icmp6, tcp, udp"
  else if rule.protocol ∈ ["tcp", "udp"] then
    if rule.icmpType ≠ "" then .error "ICMP type cannot be used with non-ICMP protocol"
    else if rule.icmpCode ≠ "" then .error "ICMP code cannot be used with non-ICMP protocol"
    else
      match (if rule.sourcePort ≠ "" then
          validatePorts (splitNTrimSpace rule.sourcePort false)
        else .ok ()) with
      | .error e => .error ("Invalid Source port: " ++ e)
      | .ok _ =>
        match (if rule.destinationPort ≠ "" then
            validatePorts (splitNTrimSpace rule.destinationPort false)
          else .ok ()) with
        | .error e => .error ("Invalid Destination port: " ++ e)
        | .ok _ => .ok ()
  else if rule.protocol ∈ ["icmp4", "icmp6"] then
    if rule.sourcePort ≠ "" then
      .error ("Source port cannot be used with \"" ++ rule.protocol ++ "\" protocol")
    else if rule.destinationPort ≠ "" then
      .error ("Destination port cannot be used with \"" ++ rule.protocol ++ "\" protocol")
    else if rule.protocol = "icmp4" ∧ src.2.2 then
      .error ("Cannot use IPv6 source addresses with \"" ++ rule.protocol ++ "\" protocol")
    else if rule.protocol = "icmp4" ∧ dst.2.2 then
      .error ("Cannot use IPv6 destination addresses with \"" ++ rule.protocol ++ "\" protocol")
    else if rule.protocol = "icmp6" ∧ src.2.1 then
      .error ("Cannot use IPv4 source addresses with \"" ++ rule.protocol ++ "\" protocol")
    else if rule.protocol = "icmp6" ∧ dst.2.1 then
      .error ("Cannot use IPv4 destination addresses with \"" ++ rule.protocol ++ "\" protocol")
    else if rule.icmpType ≠ "" ∧ ¬ isUint8 rule.icmpType then
      .error "Invalid ICMP type: not a uint8"
    else if rule.icmpCode ≠ "" ∧ ¬ isUint8 rule.icmpCode then
      .error "Invalid ICMP code: not a uint8"
    else .ok ()
  else
    if rule.icmpType ≠ "" then .error "ICMP type cannot be used without specifying protocol"
    else if rule.icmpCode ≠ "" then
      .error "ICMP code cannot be used without specifying protocol"
    else if rule.sourcePort ≠ "" then
      .error "Source port cannot be used without specifying protocol"
    else if rule.destinationPort ≠ "" then
      .error "Destination port cannot be used without specifying protocol"
    else .ok ()

/-- `common.validateRule`. -/
def validateRule (env : ACLEnv) (direction : String) (rule : NetworkACLRule) :
    Except String Unit :=
  match validateRulePreamble env direction rule with
  | .error e => .error e
  | .ok (src, dst) => validateRuleProtocol rule src dst

/-- Modelled from the spec: `api.NetworkACLRule.Normalise` (shared/api,
not under src/) — every rule is normalised before validation for
duplicate detection; the scalar fields are space-trimmed and the
comma-separated list fields are split, trimmed and re-joined. -/
def normaliseRule (r : NetworkACLRule) : NetworkACLRule :=
  ⟨goTrimSpace r.action,
    joinComma (splitNTrimSpace r.source true),
    joinComma (splitNTrimSpace r.destination true),
    goTrimSpace r.protocol,
    joinComma (splitNTrimSpace r.sourcePort true),
    joinComma (splitNTrimSpace r.destinationPort true),
    goTrimSpace r.icmpType,
    goTrimSpace r.icmpCode,
    goTrimSpace r.description,
    goTrimSpace r.state⟩

/-- Model of `internalInstance.IsUserConfig`: keys under `user.`. -/
def isUserConfig (k : String) : Bool :=
  goHasPfx k "user."

/-- `common.validateConfigMap` as called by `validateConfig` (with a nil
rules map): no field is checked, so every non-user key is an unknown
config option. -/
def validateConfigMap (config : Config) : Except String Unit :=
  match config.find? (fun kv => !(isUserConfig kv.1)) with
  | some kv => .error ("Invalid config option \"" ++ kv.1 ++ "\"")
  | none => .ok ()

/-- The duplicate scan of `validateConfig`: rule `i` is a duplicate when
some other index holds an equal rule. -/
def dupExists (all : List NetworkACLRule) (i : Nat) (r : NetworkACLRule) : Bool :=
  all.enum.any (fun p => p.1 != i && p.2 == r)

/-- The per-direction loop of `validateConfig`: validate each rule, then
scan the whole direction for duplicates of it. -/
def validateDirectionLoop (env : ACLEnv) (dirName : String) (all : List NetworkACLRule) :
    List (Nat × NetworkACLRule) → Except String Unit
  | [] => .ok ()
  | (i, rule) :: rest =>
    match validateRule env dirName rule with
    | .error e => .error ("Invalid " ++ dirName ++ " rule " ++ toString i ++ ": " ++ e)
    | .ok _ =>
      if dupExists all i rule then .error ("Duplicate of " ++ dirName ++ " rule " ++ toString i)
      else validateDirectionLoop env dirName all rest

/-- Validation of one direction's rules of `validateConfig`. -/
def validateDirectionRules (env : ACLEnv) (dirName : String)
    (all : List NetworkACLRule) : Except String Unit :=
  validateDirectionLoop env dirName all all.enum

/-- `common.validateConfig`: config-map check, then rule normalisation,
then per-direction rule validation with duplicate detection. -/
def validateConfig (env : ACLEnv) (config : Config)
    (ingress egress : List NetworkACLRule) : Except String Unit :=
  match validateConfigMap config with
  | .error e => .error e
  | .ok _ =>
    match validateDirectionRules env "ingress" (ingress.map normaliseRule) with
    | .error e => .error e
    | .ok _ => validateDirectionRules env "egress" (egress.map normaliseRule)

/-!
## Auto-restart budget (`common.shouldAutoRestart`, driver_common.go)

`instancesLastRestart[d.id]` is a `[10]time.Time` ring.  Times are
modelled as `Int` seconds; the Go zero time is `Option.none`.  The
per-instance map entry is `Option (List (Option Int))` (`none` when the
instance was never auto-restarted); entries produced by the function
always have length 10.
-/

/-- Lower-casing of an ASCII letter. -/
def lowerChar (c : Char) : Char :=
  if 'A' ≤ c ∧ c ≤ 'Z' then Char.ofNat (c.toNat + 32) else c

/-- Model of `util.IsTrue`: the lower-cased value is one of the accepted
truthy strings. -/
def goIsTrue (s : String) : Bool :=
  (⟨s.data.map lowerChar⟩ : String) ∈ ["true", "1", "yes", "on"]

/-- The first half of the ring scan: find the first unused (zero) slot
and fill it with `now`; `none` when every slot is in use. -/
def fillFirstNone (l : List (Option Int)) (now : Int) : Option (List (Option Int)) :=
  match l with
  | [] => none
  | none :: rest => some (some now :: rest)
  | some t :: rest => (fillFirstNone rest now).map (fun r => some t :: r)

/-- The oldest-timestamp scan over the (fully used) ring: Go's loop
tracking `oldestIndex`, with `timestamp.Before` a strict comparison.
Arguments: remaining slots, index of the head of the remainder, best
index so far, best value so far. -/
def oldestAux : List Int → Nat → Nat → Int → Nat × Int
  | [], _, bi, bv => (bi, bv)
  | t :: rest, i, bi, bv =>
    if t < bv then oldestAux rest (i + 1) i t
    else oldestAux rest (i + 1) bi bv

/-- The per-ring part of `shouldAutoRestart`: fill the first unused
slot, or — when every slot is in use — replace the oldest timestamp if
it is more than one minute old. -/
def shouldAutoRestartRing (ring : List (Option Int)) (now : Int) : Bool × List (Option Int) :=
  match fillFirstNone ring now with
  | some ring2 => (true, ring2)
  | none =>
    -- All slots hold timestamps; the ring (length 10) is non-empty, so
    -- the value list below cannot be empty.
    match ring.filterMap id with
    | [] => (false, ring)
    | v :: rest =>
      let p := oldestAux rest 1 0 v
      if p.2 < now - 60 then (true, ring.set p.1 (some now))
      else (false, ring)

/-- `common.shouldAutoRestart`: returns whether an auto-restart is
permitted and the updated per-instance ring entry. -/
def shouldAutoRestart (bootAutorestart : String) (st : Option (List (Option Int)))
    (now : Int) : Bool × Option (List (Option Int)) :=
  if ¬ goIsTrue bootAutorestart then (false, st)
  else
    match st with
    | none => (true, some (some now :: List.replicate 9 none))
    | some ring =>
      if ring.length = 0 then (true, some (some now :: List.replicate 9 none))
      else
        ((shouldAutoRestartRing ring now).1, some (shouldAutoRestartRing ring now).2)

/-- A sequence of auto-restart attempts at the given times, counting how
many are permitted (each attempt feeds the state of the previous one). -/
def runAutoRestarts (bootAutorestart : String) :
    Option (List (Option Int)) → List Int → Nat
  | _, [] => 0
  | st, t :: rest =>
    let r := shouldAutoRestart bootAutorestart st t
    (if r.1 then 1 else 0) + runAutoRestarts bootAutorestart r.2 rest

/-- The ring slots of a per-instance entry (`none` entry reads as an
all-zero ring, as Go's map read of a missing `[10]time.Time` would). -/
def ringSlots (st : Option (List (Option Int))) : List (Option Int) :=
  st.getD (List.replicate 10 none)

/-!
## `volatile.cloud-init.instance-id` regeneration (driver_common.go)

Devices (`deviceConfig.Devices`) are modelled as association lists from
device name to device config; Go map indexing `dev["k"]` returns the
zero value `""` for a missing key.
-/

/-- Go map indexing with the string zero value. -/
def devGet (dev : Config) (k : String) : String :=
  (cfgGet dev k).getD ""

/-- The cloud-init related config keys checked by
`needsNewInstanceID`. -/
def cloudInitKeys : List String :=
  ["cloud-init.vendor-data", "cloud-init.user-data", "cloud-init.network-config",
    "user.vendor-data", "user.user-data", "user.network-config"]

/-- The `getNICNames` closure of `needsNewInstanceID`, exactly as
written: for a NIC without a configured `name`, when
`volatile.<dev>.name` is non-empty the code appends `dev["name"]`
(which is necessarily empty at that point), not the volatile value. -/
def getNICNames (localConfig : Config) : List (String × Config) → List String
  | [] => []
  | (devName, dev) :: rest =>
    if devGet dev "type" ≠ "nic" then getNICNames localConfig rest
    else if devGet dev "name" ≠ "" then devGet dev "name" :: getNICNames localConfig rest
    else if devGet localConfig ("volatile." ++ devName ++ ".name") ≠ "" then
      devGet dev "name" :: getNICNames localConfig rest
    else devName :: getNICNames localConfig rest

/-- `common.needsNewInstanceID`: a new `volatile.cloud-init.instance-id`
is needed when a cloud-init related config key changed or the NIC name
lists (as computed by `getNICNames`) differ as sets. -/
def needsNewInstanceID (localConfig : Config) (changedConfig : List String)
    (oldExpandedDevices newExpandedDevices : List (String × Config)) : Bool :=
  if cloudInitKeys.any (fun key => changedConfig.contains key) then true
  else
    let oldNames := getNICNames localConfig oldExpandedDevices
    let newNames := getNICNames localConfig newExpandedDevices
    if oldNames.any (fun entry => !(newNames.contains entry)) then true
    else if newNames.any (fun entry => !(oldNames.contains entry)) then true
    else false

/-- The NIC-name fallback chain described by the specification:
configured `name`, else the `volatile.<dev>.name` value, else the device
name.  (This is what `getNICNames` was evidently meant to compute.) -/
def specNICNames (localConfig : Config) : List (String × Config) → List String
  | [] => []
  | (devName, dev) :: rest =>
    if devGet dev "type" ≠ "nic" then specNICNames localConfig rest
    else if devGet dev "name" ≠ "" then devGet dev "name" :: specNICNames localConfig rest
    else if devGet localConfig ("volatile." ++ devName ++ ".name") ≠ "" then
      devGet localConfig ("volatile." ++ devName ++ ".name") :: specNICNames localConfig rest
    else devName :: specNICNames localConfig rest

/-!
## Helper lemmas
-/

theorem volatileSet_badKey (pd : Bool) (lc ec : Config) (ch : List (String × String))
    (kv : String × String) (hmem : kv ∈ ch)
    (hbad : goHasPfx kv.1 configVolatilePfx = false) :
    VolatileSet pd lc ec ch =
      ⟨some "Only volatile keys can be modified with VolatileSet", lc, ec, none⟩ := by
  unfold VolatileSet
  rw [if_pos]
  exact List.any_eq_true.mpr ⟨kv, hmem, by simp [hbad]⟩

theorem volatileSet_ok (pd : Bool) (lc ec : Config) (ch : List (String × String))
    (hall : ∀ kv ∈ ch, goHasPfx kv.1 configVolatilePfx = true) :
    VolatileSet pd lc ec ch =
      ⟨none, applyVolatileChanges lc ch, applyVolatileChanges ec ch,
        if pd then none else some ch⟩ := by
  unfold VolatileSet
  rw [if_neg]
  intro hany
  rcases List.any_eq_true.mp hany with ⟨kv, hmem, hbad⟩
  rw [hall kv hmem] at hbad
  cases hbad

/-!
## C8 — backup compression resolution
-/

/-- C8: for every instance backup created by `backupCreate`, the
compression algorithm is resolved by precedence: the explicit
`CompressionAlgorithm` argument if non-empty, otherwise the project's
`backups.compression_algorithm` config if non-empty, otherwise the
global default. -/
theorem backupCreate_compression_resolution :
    ∀ argAlgo projectAlgo globalAlgo : String,
      (argAlgo ≠ "" → backupCreateCompress argAlgo projectAlgo globalAlgo = argAlgo) ∧
      (argAlgo = "" → projectAlgo ≠ "" →
        backupCreateCompress argAlgo projectAlgo globalAlgo = projectAlgo) ∧
      (argAlgo = "" → projectAlgo = "" →
        backupCreateCompress argAlgo projectAlgo globalAlgo = globalAlgo) := by
  intro a p g
  refine ⟨?_, ?_, ?_⟩ <;> intros <;> simp_all [backupCreateCompress]

/-- Witness for C8 at concrete algorithms. -/
theorem backupCreate_compression_resolution_witness :
    backupCreateCompress "gzip" "xz" "zstd" = "gzip" ∧
    backupCreateCompress "" "xz" "zstd" = "xz" ∧
    backupCreateCompress "" "" "zstd" = "zstd" :=
  ⟨(backupCreate_compression_resolution "gzip" "xz" "zstd").1 (by decide),
    (backupCreate_compression_resolution "" "xz" "zstd").2.1 rfl (by decide),
    (backupCreate_compression_resolution "" "" "zstd").2.2 rfl rfl⟩

/-!
## C9 — `VolatileSet`
-/

/-- C9: if any key of the changes does not begin with the volatile
prefix, `VolatileSet` returns an error and neither `localConfig`,
`expandedConfig` nor the database is modified; otherwise every key with
an empty value is deleted from both maps and every key with a non-empty
value is set in both (keys outside the changes are untouched). -/
theorem VolatileSet_spec :
    ∀ (pd : Bool) (lc ec : Config) (ch : List (String × String)),
      ((∃ kv ∈ ch, goHasPfx kv.1 configVolatilePfx = false) →
        VolatileSet pd lc ec ch =
          ⟨some "Only volatile keys can be modified with VolatileSet", lc, ec, none⟩) ∧
      ((∀ kv ∈ ch, goHasPfx kv.1 configVolatilePfx = true) →
        (VolatileSet pd lc ec ch).err = none ∧
        ((ch.map (·.1)).Nodup →
          ∀ kv ∈ ch,
            cfgGet (VolatileSet pd lc ec ch).localConfig kv.1 =
              (if kv.2 = "" then none else some kv.2) ∧
            cfgGet (VolatileSet pd lc ec ch).expandedConfig kv.1 =
              (if kv.2 = "" then none else some kv.2)) ∧
        (∀ k, k ∉ ch.map (·.1) →
          cfgGet (VolatileSet pd lc ec ch).localConfig k = cfgGet lc k ∧
          cfgGet (VolatileSet pd lc ec ch).expandedConfig k = cfgGet ec k)) := by
  intro pd lc ec ch
  constructor
  · rintro ⟨kv, hmem, hbad⟩
    exact volatileSet_badKey pd lc ec ch kv hmem hbad
  · intro hall
    rw [volatileSet_ok pd lc ec ch hall]
    refine ⟨rfl, ?_, ?_⟩
    · intro hnd kv hmem
      exact ⟨applyVolatileChanges_get_mem lc ch kv.1 kv.2 hmem hnd,
        applyVolatileChanges_get_mem ec ch kv.1 kv.2 hmem hnd⟩
    · intro k hk
      exact ⟨applyVolatileChanges_get_notMem lc ch k hk,
        applyVolatileChanges_get_notMem ec ch k hk⟩

/-- Witness for C9 at a concrete call. -/
theorem VolatileSet_spec_witness :
    VolatileSet false [("volatile.a", "1")] [] [("foo", "2")] =
      ⟨some "Only volatile keys can be modified with VolatileSet",
        [("volatile.a", "1")], [], none⟩ ∧
    cfgGet (VolatileSet false [("volatile.a", "1")] []
      [("volatile.b", "2"), ("volatile.a", "")]).localConfig "volatile.b" = some "2" := by
  constructor
  · exact (VolatileSet_spec false [("volatile.a", "1")] [] [("foo", "2")]).1
      ⟨("foo", "2"), by decide, by decide⟩
  · exact (((VolatileSet_spec false [("volatile.a", "1")] []
        [("volatile.b", "2"), ("volatile.a", "")]).2 (by decide)).2.1 (by decide)
        ("volatile.b", "2") (by decide)).1.trans (by decide)

/-!
## C10 — per-device volatile set/get round trip
-/

theorem deviceVolatilePfx_volatile (devName k : String) :
    goHasPfx (deviceVolatilePfx devName ++ k) configVolatilePfx = true := by
  have h : deviceVolatilePfx devName ++ k =
      configVolatilePfx ++ ((devName ++ ".") ++ k) := by
    simp [deviceVolatilePfx, configVolatilePfx, String.append_assoc]
  rw [h]
  exact goHasPfx_append _ _

/-- C10: storing a map through the closure of `deviceVolatileSetFunc(d)`
and reading it back through the closure of `deviceVolatileGetFunc(d)`
agrees with the stored map on every stored key. -/
theorem deviceVolatile_set_get_roundTrip :
    ∀ (pd : Bool) (lc ec : Config) (devName : String) (save : List (String × String)),
      (save.map (·.1)).Nodup →
      (∀ kv ∈ save, kv.2 ≠ "") →
      (deviceVolatileSet pd lc ec devName save).err = none ∧
      ∀ kv ∈ save,
        cfgGet (deviceVolatileGet (deviceVolatileSet pd lc ec devName save).localConfig
          devName) kv.1 = some kv.2 := by
  intro pd lc ec devName save hnd hne
  have hall : ∀ kv ∈ save.map (fun kv => (deviceVolatilePfx devName ++ kv.1, kv.2)),
      goHasPfx kv.1 configVolatilePfx = true := by
    intro kv hmem
    rcases List.mem_map.mp hmem with ⟨kv0, _, hkv⟩
    rw [← hkv]
    exact deviceVolatilePfx_volatile devName kv0.1
  have hset : deviceVolatileSet pd lc ec devName save =
      ⟨none, applyVolatileChanges lc (save.map (fun kv => (deviceVolatilePfx devName ++ kv.1, kv.2))),
        applyVolatileChanges ec (save.map (fun kv => (deviceVolatilePfx devName ++ kv.1, kv.2))),
        if pd then none
        else some (save.map (fun kv => (deviceVolatilePfx devName ++ kv.1, kv.2)))⟩ := by
    unfold deviceVolatileSet
    exact volatileSet_ok pd lc ec _ hall
  refine ⟨by rw [hset], ?_⟩
  intro kv hmem
  rw [hset]
  rw [cfgGet_deviceVolatileGet]
  have hkeys : (save.map (fun kv => (deviceVolatilePfx devName ++ kv.1, kv.2))).map (·.1) =
      (save.map (·.1)).map (fun k => deviceVolatilePfx devName ++ k) := by
    simp [List.map_map]
  have hnd2 : ((save.map (fun kv => (deviceVolatilePfx devName ++ kv.1, kv.2))).map (·.1)).Nodup := by
    rw [hkeys]
    exact hnd.map (fun a b h => string_append_left_cancel _ a b h)
  have hmem2 : (deviceVolatilePfx devName ++ kv.1, kv.2) ∈
      save.map (fun kv => (deviceVolatilePfx devName ++ kv.1, kv.2)) :=
    List.mem_map.mpr ⟨kv, hmem, rfl⟩
  rw [applyVolatileChanges_get_mem lc _ _ _ hmem2 hnd2]
  rw [if_neg (hne kv hmem)]

/-- Witness for C10 at a concrete device and map. -/
theorem deviceVolatile_set_get_roundTrip_witness :
    (deviceVolatileSet false [] [] "eth0" [("hwaddr", "aa"), ("name", "net1")]).err = none ∧
    ∀ kv ∈ [(("hwaddr" : String), ("aa" : String)), ("name", "net1")],
      cfgGet (deviceVolatileGet
        (deviceVolatileSet false [] [] "eth0" [("hwaddr", "aa"), ("name", "net1")]).localConfig
        "eth0") kv.1 = some kv.2 :=
  deviceVolatile_set_get_roundTrip false [] [] "eth0" [("hwaddr", "aa"), ("name", "net1")]
    (by decide) (by decide)

/-!
## C1 — evacuation checks in the create dispatcher
-/

/-- C1 counterexample: a raw octet-stream backup-restore request is
dispatched to `createFromBackup` and proceeds even though the server is
clustered, the local member is evacuated and the request is not a
cluster-internal notification — it is not rejected with Forbidden
"Cluster member is evacuated". -/
theorem instancesPost_evacuated_counterexample :
    instancesPostDispatch ⟨true, true⟩ ⟨true, "", false⟩ = CreateResponse.proceeds ∧
    CreateResponse.proceeds ≠ CreateResponse.forbiddenEvacuated :=
  ⟨rfl, by decide⟩

/-- C1 (amended): while the local member is evacuated, create requests
with source type image, none or copy are rejected with Forbidden
"Cluster member is evacuated" regardless of whether they are
cluster-internal, and migration requests are rejected when they are not
cluster-internal; the raw octet-stream backup-restore path performs no
such check. -/
theorem instancesPost_evacuated_amended :
    ∀ (st : DaemonState) (req : CreateReq),
      st.serverClustered = true → st.localNodeIsEvacuated = true →
      req.contentTypeOctetStream = false →
      ((req.sourceType = "image" ∨ req.sourceType = "none" ∨ req.sourceType = "copy") ∨
        (req.sourceType = "migration" ∧ req.protocolCluster = false)) →
      instancesPostDispatch st req = CreateResponse.forbiddenEvacuated := by
  intro st req hc he hct hsrc
  rcases hsrc with (h | h | h) | ⟨h, hp⟩
  · simp [instancesPostDispatch, createFromImageEntry, h, hc, he, hct]
  · simp [instancesPostDispatch, createFromNoneEntry, h, hc, he, hct]
  · simp [instancesPostDispatch, createFromCopyEntry, h, hc, he, hct]
  · simp [instancesPostDispatch, createFromMigrationEntry, h, hc, he, hct, hp]

/-- Witness for C1's amended theorem: a cluster-internal image request
and a non-cluster-internal migration request, both on an evacuated
member. -/
theorem instancesPost_evacuated_amended_witness :
    instancesPostDispatch ⟨true, true⟩ ⟨false, "image", true⟩ =
      CreateResponse.forbiddenEvacuated ∧
    instancesPostDispatch ⟨true, true⟩ ⟨false, "migration", false⟩ =
      CreateResponse.forbiddenEvacuated :=
  ⟨instancesPost_evacuated_amended ⟨true, true⟩ ⟨false, "image", true⟩
      rfl rfl rfl (Or.inl (Or.inl rfl)),
    instancesPost_evacuated_amended ⟨true, true⟩ ⟨false, "migration", false⟩
      rfl rfl rfl (Or.inr ⟨rfl, rfl⟩)⟩

/-!
## C4 — automatic name generation
-/

/-- A random-name sequence whose first 100 outputs collide with an
existing instance name and whose 101st is fresh. -/
def autoNameCexGen : Nat → String :=
  fun i => if i ≤ 100 then "taken" else "fresh"

set_option maxRecDepth 8000 in
/-- C4 counterexample: every one of the first 100 generation attempts
collides, yet the loop does not fail — it succeeds with the 101st
generated name, so the limit is not 100 attempts. -/
theorem instancesPost_autoName_counterexample :
    (∀ i, 1 ≤ i → i ≤ 100 → autoNameCexGen i ∈ ["taken"]) ∧
    generateInstanceName ["taken"] autoNameCexGen = some "fresh" := by
  constructor
  · intro i h1 h2
    simp [autoNameCexGen, h2]
  · rfl

theorem autoNameAux_spec (names : List String) (gen : Nat → String) :
    ∀ left i, i + left = 101 →
      (autoNameAux names gen i left = none ↔ ∀ j, i < j → j ≤ 101 → gen j ∈ names) ∧
      (∀ name, autoNameAux names gen i left = some name →
        name ∉ names ∧ ∃ j, i < j ∧ j ≤ 101 ∧ name = gen j) := by
  intro left
  induction left with
  | zero =>
    intro i hi
    constructor
    · constructor
      · intro _ j hj1 hj2
        omega
      · intro _
        rfl
    · intro name hname
      cases hname
  | succ left ih =>
    intro i hi
    by_cases hc : names.contains (gen (i + 1))
    · have hmem : gen (i + 1) ∈ names := by
        simpa using hc
      by_cases hov : i + 1 > 100
      · have hi100 : i = 100 := by omega
        constructor
        · constructor
          · intro _ j hj1 hj2
            have : j = i + 1 := by omega
            rw [this]
            exact hmem
          · intro _
            rw [autoNameAux, if_neg (by simpa using hc), if_pos hov]
        · intro name hname
          rw [autoNameAux, if_neg (by simpa using hc), if_pos hov] at hname
          cases hname
      · have hrec : autoNameAux names gen i (left + 1) = autoNameAux names gen (i + 1) left := by
          rw [autoNameAux, if_neg (by simpa using hc), if_neg hov]
        rcases ih (i + 1) (by omega) with ⟨ihiff, ihsome⟩
        constructor
        · rw [hrec, ihiff]
          constructor
          · intro hall j hj1 hj2
            by_cases hji : j = i + 1
            · rw [hji]
              exact hmem
            · exact hall j (by omega) hj2
          · intro hall j hj1 hj2
            exact hall j (by omega) hj2
        · intro name hname
          rw [hrec] at hname
          rcases ihsome name hname with ⟨hnm, j, hj1, hj2, hj3⟩
          exact ⟨hnm, j, by omega, hj2, hj3⟩
    · constructor
      · constructor
        · intro hnone
          rw [autoNameAux, if_pos (by simpa using hc)] at hnone
          cases hnone
        · intro hall
          exact absurd (hall (i + 1) (by omega) (by omega)) (by simpa using hc)
      · intro name hname
        rw [autoNameAux, if_pos (by simpa using hc)] at hname
        cases hname
        exact ⟨by simpa using hc, i + 1, by omega, by omega, rfl⟩

/-- C4 (amended): the loop retries until the generated name is unique
within the project, making at most 101 generation attempts; it fails
exactly when all 101 attempts collide, and a returned name is always
unique within the project. -/
theorem generateInstanceName_spec :
    ∀ (names : List String) (gen : Nat → String),
      (generateInstanceName names gen = none ↔ ∀ i, 1 ≤ i → i ≤ 101 → gen i ∈ names) ∧
      (∀ name, generateInstanceName names gen = some name →
        name ∉ names ∧ ∃ i, 1 ≤ i ∧ i ≤ 101 ∧ name = gen i) := by
  intro names gen
  rcases autoNameAux_spec names gen 101 0 rfl with ⟨hiff, hsome⟩
  constructor
  · rw [generateInstanceName, hiff]
    constructor
    · intro hall i h1 h2
      exact hall i h1 h2
    · intro hall j hj1 hj2
      exact hall j hj1 hj2
  · intro name hname
    rcases hsome name hname with ⟨hnm, j, hj1, hj2, hj3⟩
    exact ⟨hnm, j, hj1, hj2, hj3⟩

/-- Witness for C4's amended theorem. -/
theorem generateInstanceName_spec_witness :
    (generateInstanceName ["x1"] (fun _ => "x1") = none) ∧ ("y1" ∉ (["x1"] : List String)) := by
  constructor
  · exact (generateInstanceName_spec ["x1"] (fun _ => "x1")).1.mpr (fun i _ _ => by simp)
  · exact ((generateInstanceName_spec ["x1"] (fun _ => "y1")).2 "y1" rfl).1

/-!
## C2 — named subjects and the origin field
-/

/-- C2 counterexample: an egress rule with the address-set subject
`$set1` in its Source field — a named subject outside the origin field
(`Destination` for egress) — is accepted by `validateRule`, because the
`$` branch of `validSubject` never consults `allowSubjectNames`. -/
theorem acl_namedSubject_counterexample :
    validateRule ⟨[], ["set1"]⟩ "egress"
        ⟨"allow", "$set1", "", "", "", "", "", "", "", "enabled"⟩ = Except.ok () ∧
    allowSubjectNamesFor "Source" "egress" = false :=
  ⟨rfl, rfl⟩

/-- C2 (amended): ACL names, the reserved `@`/`#` subjects and any other
`@`-prefixed (peer) subject are accepted only in the origin field
(Source for ingress, Destination for egress) and rejected elsewhere;
`$address-set` subjects, however, are accepted in any field/direction
combination provided the address set exists. -/
theorem acl_namedSubject_amended :
    ∀ (env : ACLEnv) (fieldName direction subject : String),
      subjectIPVersion subject = none →
      ((subject ∈ validSubjectNames env ∨ goHasPfx subject "@" = true) →
        (allowSubjectNamesFor fieldName direction = true →
          validSubject env fieldName direction subject = Except.ok 0) ∧
        (allowSubjectNamesFor fieldName direction = false →
          validSubject env fieldName direction subject =
            Except.error ("Named subjects not allowed in \"" ++ fieldName ++ "\" for \"" ++
              direction ++ "\" rules"))) ∧
      (subject ∉ validSubjectNames env → goHasPfx subject "@" = false →
        goHasPfx subject "$" = true →
        (validSubject env fieldName direction subject = Except.ok 0 ↔
          goTrimDollar subject ∈ env.addressSets)) := by
  intro env f d s hip
  constructor
  · intro hname
    constructor
    · intro hallow
      unfold validSubject
      rw [hip]
      by_cases hmem : s ∈ validSubjectNames env
      · rw [if_pos hmem, if_pos hallow]
      · rcases hname with hmem' | hat
        · exact absurd hmem' hmem
        · rw [if_neg hmem, if_pos hat, if_pos hallow]
    · intro hallow
      unfold validSubject
      rw [hip]
      by_cases hmem : s ∈ validSubjectNames env
      · rw [if_pos hmem, if_neg (by simp [hallow])]
      · rcases hname with hmem' | hat
        · exact absurd hmem' hmem
        · rw [if_neg hmem, if_pos hat, if_neg (by simp [hallow])]
  · intro hnm hat hd
    unfold validSubject
    rw [hip, if_neg hnm, if_neg (by simp [hat]), if_pos hd]
    constructor
    · intro hok
      by_cases hmem : goTrimDollar s ∈ env.addressSets
      · exact hmem
      · rw [if_neg hmem] at hok
        cases hok
    · intro hmem
      rw [if_pos hmem]

/-- Witness for C2's amended theorem. -/
theorem acl_namedSubject_amended_witness :
    validSubject ⟨["aclA"], []⟩ "Source" "ingress" "@internal" = Except.ok 0 ∧
    validSubject ⟨["aclA"], []⟩ "Source" "egress" "@internal" =
      Except.error "Named subjects not allowed in \"Source\" for \"egress\" rules" ∧
    (validSubject ⟨[], ["setZ"]⟩ "Destination" "ingress" "$setZ" = Except.ok 0 ↔
      goTrimDollar "$setZ" ∈ ["setZ"]) := by
  refine ⟨?_, ?_, ?_⟩
  · exact ((acl_namedSubject_amended ⟨["aclA"], []⟩ "Source" "ingress" "@internal"
      (by decide)).1 (Or.inl (by decide))).1 (by decide)
  · have h := ((acl_namedSubject_amended ⟨["aclA"], []⟩ "Source" "egress" "@internal"
      (by decide)).1 (Or.inl (by decide))).2 (by decide)
    exact h
  · exact (acl_namedSubject_amended ⟨[], ["setZ"]⟩ "Destination" "ingress" "$setZ"
      (by decide)).2 (by decide) (by decide) (by decide)

/-!
## C6 — protocol-dependent field errors
-/

/-- C6 counterexample: the specification's own example rule
`{Action: allow, Protocol: icmp4, Source: "fe80::1"}` (State unset) has
Protocol icmp4 and an IPv6 source subject yet `validateRule` returns
the State error — the earlier checks fire first, so the claimed error is
not returned for every such rule. -/
theorem acl_icmp_counterexample :
    validateRule ⟨[], []⟩ "ingress"
        ⟨"allow", "fe80::1", "", "icmp4", "", "", "", "", "", ""⟩ =
      Except.error "State must be one of: enabled, disabled, logged" :=
  rfl

/-- C6 (amended): for a rule that passes the Action/State/subject and
cross-family checks, Protocol tcp or udp with a non-empty ICMPType
yields the error "ICMP type cannot be used with non-ICMP protocol"; and
Protocol icmp4 with an IPv6 source subject (and no port fields, which
are checked first) yields the error `Cannot use IPv6 source addresses
with "icmp4" protocol`. -/
theorem acl_icmp_amended :
    ∀ (env : ACLEnv) (direction : String) (rule : NetworkACLRule) (src dst : SubjectFlags),
      validateRulePreamble env direction rule = Except.ok (src, dst) →
      ((rule.protocol = "tcp" ∨ rule.protocol = "udp") → rule.icmpType ≠ "" →
        validateRule env direction rule =
          Except.error "ICMP type cannot be used with non-ICMP protocol") ∧
      (rule.protocol = "icmp4" → src.2.2 = true →
        rule.sourcePort = "" → rule.destinationPort = "" →
        validateRule env direction rule =
          Except.error "Cannot use IPv6 source addresses with \"icmp4\" protocol") := by
  intro env direction rule src dst hpre
  have hvr : validateRule env direction rule = validateRuleProtocol rule src dst := by
    unfold validateRule
    rw [hpre]
  constructor
  · intro hproto hicmp
    rw [hvr]
    unfold validateRuleProtocol
    rcases hproto with h | h <;>
      rw [if_neg (by rw [h]; decide), if_pos (by rw [h]; decide), if_pos hicmp]
  · intro h4 hs6 hsp hdp
    rw [hvr]
    unfold validateRuleProtocol
    rw [if_neg (by rw [h4]; decide), if_neg (by rw [h4]; decide), if_pos (by rw [h4]; decide),
      if_neg (by simp [hsp]), if_neg (by simp [hdp]), if_pos ⟨h4, hs6⟩, h4]
    rfl

/-- Witness for C6's amended theorem. -/
theorem acl_icmp_amended_witness :
    validateRule ⟨[], []⟩ "ingress"
        ⟨"allow", "", "", "tcp", "", "", "8", "", "", "enabled"⟩ =
      Except.error "ICMP type cannot be used with non-ICMP protocol" ∧
    validateRule ⟨[], []⟩ "ingress"
        ⟨"allow", "fe80::1", "", "icmp4", "", "", "", "", "", "enabled"⟩ =
      Except.error "Cannot use IPv6 source addresses with \"icmp4\" protocol" := by
  constructor
  · exact (acl_icmp_amended ⟨[], []⟩ "ingress"
      ⟨"allow", "", "", "tcp", "", "", "8", "", "", "enabled"⟩
      (false, false, false) (false, false, false) rfl).1 (Or.inl rfl) (by decide)
  · exact (acl_icmp_amended ⟨[], []⟩ "ingress"
      ⟨"allow", "fe80::1", "", "icmp4", "", "", "", "", "", "enabled"⟩
      (false, false, true) (false, false, false) rfl).2 rfl rfl rfl rfl

/-!
## C5 — duplicate detection in `validateConfig`
-/

theorem validateDirectionLoop_ok (env : ACLEnv) (dirName : String)
    (all : List NetworkACLRule) :
    ∀ l, validateDirectionLoop env dirName all l = Except.ok () →
      ∀ p ∈ l, dupExists all p.1 p.2 = false := by
  intro l
  induction l with
  | nil =>
    intro _ p hp
    cases hp
  | cons hd tl ih =>
    intro hok p hp
    cases hd with
    | mk i rule =>
      rw [validateDirectionLoop] at hok
      cases hvr : validateRule env dirName rule with
      | error e =>
        rw [hvr] at hok
        cases hok
      | ok u =>
        rw [hvr] at hok
        by_cases hdup : dupExists all i rule = true
        · rw [if_pos hdup] at hok
          cases hok
        · rw [if_neg hdup] at hok
          rcases List.mem_cons.mp hp with h | h
          · subst h
            exact Bool.eq_false_iff.mpr hdup
          · exact ih hok p h

theorem validateDirectionRules_noDup (env : ACLEnv) (dirName : String)
    (all : List NetworkACLRule)
    (hok : validateDirectionRules env dirName all = Except.ok ()) :
    ∀ i j, (hi : i < all.length) → (hj : j < all.length) → i ≠ j →
      all[i] ≠ all[j] := by
  intro i j hi hj hne heq
  have hmemI : (i, all[i]) ∈ all.enum :=
    List.mk_mem_enum_iff_getElem?.mpr (List.getElem?_eq_getElem hi)
  have hmemJ : (j, all[j]) ∈ all.enum :=
    List.mk_mem_enum_iff_getElem?.mpr (List.getElem?_eq_getElem hj)
  have hdup := validateDirectionLoop_ok env dirName all all.enum hok (i, all[i]) hmemI
  have hwit : dupExists all i (all[i]) = true := by
    unfold dupExists
    refine List.any_eq_true.mpr ⟨(j, all[j]), hmemJ, ?_⟩
    simp [Ne.symm hne, heq]
  rw [hdup] at hwit
  cases hwit

/-- C5: `validateConfig` returns OK only if, after normalising every
rule, no two distinct rules within the Ingress direction are equal and
no two distinct rules within the Egress direction are equal. -/
theorem validateConfig_noDuplicates :
    ∀ (env : ACLEnv) (config : Config) (ingress egress : List NetworkACLRule),
      validateConfig env config ingress egress = Except.ok () →
      (∀ i j, (hi : i < (ingress.map normaliseRule).length) →
        (hj : j < (ingress.map normaliseRule).length) → i ≠ j →
        (ingress.map normaliseRule)[i] ≠ (ingress.map normaliseRule)[j]) ∧
      (∀ i j, (hi : i < (egress.map normaliseRule).length) →
        (hj : j < (egress.map normaliseRule).length) → i ≠ j →
        (egress.map normaliseRule)[i] ≠ (egress.map normaliseRule)[j]) := by
  intro env config ingress egress hok
  unfold validateConfig at hok
  cases hcm : validateConfigMap config with
  | error e =>
    rw [hcm] at hok
    cases hok
  | ok u =>
    rw [hcm] at hok
    cases hin : validateDirectionRules env "ingress" (ingress.map normaliseRule) with
    | error e =>
      rw [hin] at hok
      cases hok
    | ok u2 =>
      rw [hin] at hok
      exact ⟨validateDirectionRules_noDup env "ingress" _ hin,
        validateDirectionRules_noDup env "egress" _ hok⟩

/-!
## C3 — the auto-restart budget
-/

/-- A ring whose first slots hold the given timestamps and whose
remaining (out of 10) slots are unused. -/
def ringOf (filled : List Int) : List (Option Int) :=
  filled.map some ++ List.replicate (10 - filled.length) none

theorem fillFirstNone_eq_none (l : List (Option Int)) (now : Int) :
    fillFirstNone l now = none ↔ ∀ s ∈ l, s ≠ none := by
  induction l with
  | nil => simp [fillFirstNone]
  | cons hd tl ih =>
    cases hd with
    | none => simp [fillFirstNone]
    | some t => simp [fillFirstNone, Option.map_eq_none', ih]

theorem fillFirstNone_some_set (l : List (Option Int)) (now : Int) :
    ∀ r, fillFirstNone l now = some r → ∃ i, i < l.length ∧ r = l.set i (some now) := by
  induction l with
  | nil =>
    intro r h
    cases h
  | cons hd tl ih =>
    intro r h
    cases hd with
    | none =>
      rw [fillFirstNone] at h
      cases h
      exact ⟨0, by simp, rfl⟩
    | some t =>
      rw [fillFirstNone] at h
      cases hf : fillFirstNone tl now with
      | none =>
        rw [hf] at h
        cases h
      | some r0 =>
        rw [hf] at h
        cases h
        rcases ih r0 hf with ⟨i, hi, hr⟩
        exact ⟨i + 1, by simpa using hi, by simp [hr]⟩

theorem fillFirstNone_map_some (xs : List Int) (now : Int) (m : Nat) :
    fillFirstNone (xs.map some ++ List.replicate (m + 1) none) now =
      some (xs.map some ++ some now :: List.replicate m none) := by
  induction xs with
  | nil => simp [fillFirstNone, List.replicate_succ]
  | cons x xs ih => simp [fillFirstNone, ih]

theorem fillFirstNone_all_some (xs : List Int) (now : Int) :
    fillFirstNone (xs.map some) now = none := by
  induction xs with
  | nil => rfl
  | cons x xs ih => simp [fillFirstNone, ih]

theorem oldestAux_min (l : List Int) :
    ∀ i bi bv, (oldestAux l i bi bv).2 ≤ bv ∧ ∀ x ∈ l, (oldestAux l i bi bv).2 ≤ x := by
  induction l with
  | nil =>
    intro i bi bv
    exact ⟨le_refl _, by simp⟩
  | cons t rest ih =>
    intro i bi bv
    rw [oldestAux]
    by_cases h : t < bv
    · rw [if_pos h]
      rcases ih (i + 1) i t with ⟨h1, h2⟩
      refine ⟨le_trans h1 (le_of_lt h), ?_⟩
      intro x hx
      rcases List.mem_cons.mp hx with hx | hx
      · rw [hx]
        exact h1
      · exact h2 x hx
    · rw [if_neg h]
      rcases ih (i + 1) bi bv with ⟨h1, h2⟩
      refine ⟨h1, ?_⟩
      intro x hx
      rcases List.mem_cons.mp hx with hx | hx
      · rw [hx]
        exact le_trans h1 (not_lt.mp h)
      · exact h2 x hx

theorem oldestAux_mem (l : List Int) :
    ∀ i bi bv, (oldestAux l i bi bv).2 = bv ∨ (oldestAux l i bi bv).2 ∈ l := by
  induction l with
  | nil =>
    intro i bi bv
    exact Or.inl rfl
  | cons t rest ih =>
    intro i bi bv
    rw [oldestAux]
    by_cases h : t < bv
    · rw [if_pos h]
      rcases ih (i + 1) i t with h1 | h1
      · exact Or.inr (List.mem_cons.mpr (Or.inl h1))
      · exact Or.inr (List.mem_cons_of_mem _ h1)
    · rw [if_neg h]
      rcases ih (i + 1) bi bv with h1 | h1
      · exact Or.inl h1
      · exact Or.inr (List.mem_cons_of_mem _ h1)

theorem oldestAux_idx (l : List Int) :
    ∀ i bi bv, (oldestAux l i bi bv).1 = bi ∨
      (i ≤ (oldestAux l i bi bv).1 ∧ (oldestAux l i bi bv).1 < i + l.length) := by
  induction l with
  | nil =>
    intro i bi bv
    exact Or.inl rfl
  | cons t rest ih =>
    intro i bi bv
    rw [oldestAux]
    by_cases h : t < bv
    · rw [if_pos h]
      rcases ih (i + 1) i t with h1 | h1
      · right
        rw [h1]
        simp only [List.length_cons]
        omega
      · right
        simp only [List.length_cons]
        omega
    · rw [if_neg h]
      rcases ih (i + 1) bi bv with h1 | h1
      · exact Or.inl h1
      · right
        simp only [List.length_cons]
        omega

theorem allSome_eq_map (l : List (Option Int)) (h : ∀ s ∈ l, s ≠ none) :
    l = (l.filterMap id).map some := by
  induction l with
  | nil => rfl
  | cons hd tl ih =>
    cases hd with
    | none => exact absurd rfl (h none (List.mem_cons_self _ _))
    | some t =>
      have := ih (fun s hs => h s (List.mem_cons_of_mem _ hs))
      simpa using this

theorem shouldAutoRestart_some (ring : List (Option Int)) (now : Int)
    (h : ring.length ≠ 0) :
    shouldAutoRestart "true" (some ring) now =
      ((shouldAutoRestartRing ring now).1, some (shouldAutoRestartRing ring now).2) := by
  unfold shouldAutoRestart
  rw [if_neg (not_not_intro (by decide))]
  exact if_neg h

theorem ringStep_allSome (v : Int) (rest : List Int) (now : Int) :
    shouldAutoRestartRing ((v :: rest).map some) now =
      (if (oldestAux rest 1 0 v).2 < now - 60
        then (true, ((v :: rest).map some).set (oldestAux rest 1 0 v).1 (some now))
        else (false, (v :: rest).map some)) := by
  unfold shouldAutoRestartRing
  rw [fillFirstNone_all_some]
  have h : ((v :: rest).map some).filterMap id = v :: rest := by simp
  rw [h]

theorem step_ringOf_notFull (filled : List Int) (now : Int) (h : filled.length < 10) :
    shouldAutoRestart "true" (some (ringOf filled)) now =
      (true, some (ringOf (filled ++ [now]))) := by
  have hlen : (ringOf filled).length ≠ 0 := by
    simp only [ringOf, List.length_append, List.length_map, List.length_replicate]
    omega
  rw [shouldAutoRestart_some _ _ hlen]
  have hm : 10 - filled.length = (10 - (filled.length + 1)) + 1 := by omega
  have hf : fillFirstNone (ringOf filled) now = some (ringOf (filled ++ [now])) := by
    rw [ringOf, hm, fillFirstNone_map_some, ringOf]
    simp
  unfold shouldAutoRestartRing
  rw [hf]

theorem step_ringOf_full_denied (filled : List Int) (now : Int) (h : filled.length = 10)
    (hwin : ∀ x ∈ filled, ¬ x < now - 60) :
    shouldAutoRestart "true" (some (ringOf filled)) now = (false, some (ringOf filled)) := by
  have hfull : ringOf filled = filled.map some := by
    simp [ringOf, h]
  cases filled with
  | nil => simp at h
  | cons v rest =>
    have hne : (ringOf (v :: rest)).length ≠ 0 := by
      simp [ringOf]
    rw [shouldAutoRestart_some _ _ hne, hfull, ringStep_allSome]
    have hv : (oldestAux rest 1 0 v).2 ∈ v :: rest := by
      rcases oldestAux_mem rest 1 0 v with h1 | h1
      · rw [h1]
        exact List.mem_cons_self _ _
      · exact List.mem_cons_of_mem _ h1
    rw [if_neg (hwin _ hv)]

theorem runAutoRestarts_ringOf (ts : List Int) :
    ∀ filled : List Int, filled.length ≤ 10 →
      (∀ x ∈ filled, ∀ t ∈ ts, t - x ≤ 60) →
      (∀ x ∈ ts, ∀ t ∈ ts, t - x ≤ 60) →
      runAutoRestarts "true" (some (ringOf filled)) ts =
        min ts.length (10 - filled.length) := by
  induction ts with
  | nil =>
    intro filled _ _ _
    simp [runAutoRestarts]
  | cons t rest ih =>
    intro filled hlen hw1 hw2
    rw [runAutoRestarts]
    by_cases hfull : filled.length < 10
    · rw [step_ringOf_notFull filled t hfull]
      have ih' := ih (filled ++ [t]) (by simp; omega)
        (by
          intro x hx u hu
          rcases List.mem_append.mp hx with hx | hx
          · exact hw1 x hx u (List.mem_cons_of_mem _ hu)
          · have hxt : x = t := by simpa using hx
            rw [hxt]
            exact hw2 t (List.mem_cons_self _ _) u (List.mem_cons_of_mem _ hu))
        (by
          intro x hx u hu
          exact hw2 x (List.mem_cons_of_mem _ hx) u (List.mem_cons_of_mem _ hu))
      rw [ih']
      simp only [List.length_append, List.length_singleton, List.length_cons,
        Prod.fst, if_true]
      simp
      omega
    · have h10 : filled.length = 10 := by omega
      have hden : shouldAutoRestart "true" (some (ringOf filled)) t =
          (false, some (ringOf filled)) := by
        apply step_ringOf_full_denied filled t h10
        intro x hx
        have := hw1 x hx t (List.mem_cons_self _ _)
        omega
      rw [hden]
      have ih' := ih filled hlen
        (by
          intro x hx u hu
          exact hw1 x hx u (List.mem_cons_of_mem _ hu))
        (by
          intro x hx u hu
          exact hw2 x (List.mem_cons_of_mem _ hx) u (List.mem_cons_of_mem _ hu))
      rw [ih']
      simp only [List.length_cons, h10]
      simp

/-- C3: with `boot.autorestart` enabled, an auto-restart is permitted
iff fewer than 10 ring slots hold timestamps or the oldest held
timestamp is more than one minute old; when permitted, exactly one slot
of the ring is replaced with the current time; and a sequence of N
attempts within a one-minute window permits exactly `min N 10`. -/
theorem shouldAutoRestart_spec :
    (∀ (st : Option (List (Option Int))) (now : Int),
      (st = none ∨ ∃ ring, st = some ring ∧ ring.length = 10) →
      ((shouldAutoRestart "true" st now).1 = true ↔
        (∃ s ∈ ringSlots st, s = none) ∨
          ∃ x : Int, some x ∈ ringSlots st ∧ x < now - 60)) ∧
    (∀ (st : Option (List (Option Int))) (now : Int),
      (st = none ∨ ∃ ring, st = some ring ∧ ring.length = 10) →
      (shouldAutoRestart "true" st now).1 = true →
      ∃ i, i < 10 ∧
        (shouldAutoRestart "true" st now).2 = some ((ringSlots st).set i (some now))) ∧
    (∀ ts : List Int, (∀ x ∈ ts, ∀ t ∈ ts, t - x ≤ 60) →
      runAutoRestarts "true" none ts = min ts.length 10) := by
  have hnone : ∀ now : Int, shouldAutoRestart "true" none now =
      (true, some (some now :: List.replicate 9 none)) := by
    intro now
    unfold shouldAutoRestart
    rw [if_neg (not_not_intro (by decide))]
  refine ⟨?_, ?_, ?_⟩
  · -- permitted iff a slot is free or the oldest timestamp is stale
    intro st now hwf
    rcases hwf with hst | ⟨ring, hst, hlen⟩
    · subst hst
      rw [hnone now]
      exact ⟨fun _ => Or.inl ⟨none, by simp [ringSlots], rfl⟩, fun _ => rfl⟩
    · subst hst
      rw [shouldAutoRestart_some ring now (by omega)]
      cases hf : fillFirstNone ring now with
      | some r2 =>
        have hstep : shouldAutoRestartRing ring now = (true, r2) := by
          unfold shouldAutoRestartRing
          rw [hf]
        rw [hstep]
        refine ⟨fun _ => ?_, fun _ => rfl⟩
        have hex : ¬ ∀ s ∈ ring, s ≠ none := by
          intro hall
          rw [(fillFirstNone_eq_none ring now).mpr hall] at hf
          cases hf
        push_neg at hex
        left
        simpa [ringSlots] using hex
      | none =>
        have hall : ∀ s ∈ ring, s ≠ none := (fillFirstNone_eq_none ring now).mp hf
        have hring : ring = (ring.filterMap id).map some := allSome_eq_map ring hall
        cases hv : ring.filterMap id with
        | nil =>
          exfalso
          rw [hv] at hring
          rw [hring] at hlen
          simp at hlen
        | cons v rest =>
          rw [hv] at hring
          have hrest : rest.length = 9 := by
            have h10 := hlen
            rw [hring] at h10
            simp at h10
            omega
          rw [hring, ringStep_allSome]
          by_cases hc : (oldestAux rest 1 0 v).2 < now - 60
          · rw [if_pos hc]
            refine ⟨fun _ => Or.inr ⟨(oldestAux rest 1 0 v).2, ?_, hc⟩, fun _ => rfl⟩
            have hmem : (oldestAux rest 1 0 v).2 ∈ v :: rest := by
              rcases oldestAux_mem rest 1 0 v with h1 | h1
              · rw [h1]
                exact List.mem_cons_self _ _
              · exact List.mem_cons_of_mem _ h1
            simpa [ringSlots] using List.mem_map_of_mem some hmem
          · rw [if_neg hc]
            constructor
            · intro h
              simp at h
            · intro hrhs
              exfalso
              rcases hrhs with ⟨s, hs, hsnone⟩ | ⟨x, hx, hlt⟩
              · simp only [ringSlots, Option.getD_some] at hs
                rcases List.mem_map.mp hs with ⟨a, _, ha⟩
                rw [hsnone] at ha
                cases ha
              · simp only [ringSlots, Option.getD_some] at hx
                rcases List.mem_map.mp hx with ⟨a, hamem, ha⟩
                have hax : a = x := by
                  injection ha
                rcases oldestAux_min rest 1 0 v with ⟨h1, h2⟩
                have hle : (oldestAux rest 1 0 v).2 ≤ x := by
                  rcases List.mem_cons.mp hamem with h3 | h3
                  · omega
                  · have h4 := h2 a h3
                    omega
                omega
  · -- the consumed slot is replaced with the current time
    intro st now hwf hperm
    rcases hwf with hst | ⟨ring, hst, hlen⟩
    · subst hst
      refine ⟨0, by omega, ?_⟩
      rw [hnone now]
      simp [ringSlots, List.replicate_succ]
    · subst hst
      rw [shouldAutoRestart_some ring now (by omega)] at hperm ⊢
      cases hf : fillFirstNone ring now with
      | some r2 =>
        have hstep : shouldAutoRestartRing ring now = (true, r2) := by
          unfold shouldAutoRestartRing
          rw [hf]
        rw [hstep]
        rcases fillFirstNone_some_set ring now r2 hf with ⟨i, hi, hr⟩
        refine ⟨i, by omega, ?_⟩
        rw [hr]
        rfl
      | none =>
        have hall : ∀ s ∈ ring, s ≠ none := (fillFirstNone_eq_none ring now).mp hf
        have hring : ring = (ring.filterMap id).map some := allSome_eq_map ring hall
        cases hv : ring.filterMap id with
        | nil =>
          exfalso
          rw [hv] at hring
          rw [hring] at hlen
          simp at hlen
        | cons v rest =>
          rw [hv] at hring
          have hrest : rest.length = 9 := by
            have h10 := hlen
            rw [hring] at h10
            simp at h10
            omega
          rw [hring, ringStep_allSome] at hperm ⊢
          by_cases hc : (oldestAux rest 1 0 v).2 < now - 60
          · rw [if_pos hc]
            refine ⟨(oldestAux rest 1 0 v).1, ?_, rfl⟩
            rcases oldestAux_idx rest 1 0 v with h1 | h1
            · omega
            · omega
          · rw [if_neg hc] at hperm
            simp at hperm
  · -- min(N, 10) attempts are permitted within a one-minute window
    intro ts hw
    cases ts with
    | nil => simp [runAutoRestarts]
    | cons t rest =>
      rw [runAutoRestarts, hnone t]
      have h1 : some t :: List.replicate 9 none = ringOf [t] := by
        simp [ringOf]
      rw [h1, runAutoRestarts_ringOf rest [t] (by simp)
        (by
          intro x hx u hu
          have hxt : x = t := by simpa using hx
          rw [hxt]
          exact hw t (List.mem_cons_self _ _) u (List.mem_cons_of_mem _ hu))
        (by
          intro x hx u hu
          exact hw x (List.mem_cons_of_mem _ hx) u (List.mem_cons_of_mem _ hu))]
      simp only [List.length_cons, List.length_singleton]
      simp
      omega

/-- Witness for C3 at concrete states and attempt sequences. -/
theorem shouldAutoRestart_spec_witness :
    (shouldAutoRestart "true" (some (List.replicate 10 (some (0 : Int)))) 100).1 = true ∧
    runAutoRestarts "true" none [0, 1, 2] = min 3 10 := by
  constructor
  · exact (shouldAutoRestart_spec.1 (some (List.replicate 10 (some (0 : Int)))) 100
      (Or.inr ⟨_, rfl, by decide⟩)).mpr (Or.inr ⟨0, by decide, by decide⟩)
  · exact shouldAutoRestart_spec.2.2 [0, 1, 2] (by decide)

/-!
## C7 — NIC-name based instance-id regeneration
-/

/-- C7: evaluation of `needsNewInstanceID` at a failing input.  Two NIC
devices without a configured `name` but with differing
`volatile.<dev>.name` values should count as a NIC-name change per the
specification's fallback chain (`specNICNames` yields `["net1"]` versus
`["net2"]`), yet `needsNewInstanceID` returns `false`: `getNICNames`
tests the volatile name but then appends the (empty) configured
`dev["name"]` instead of it, so both NIC-name lists collapse to
`[""]`. -/
theorem needsNewInstanceID_bug :
    needsNewInstanceID
        [("volatile.eth0.name", "net1"), ("volatile.eth1.name", "net2")] []
        [("eth0", [("type", "nic")])] [("eth1", [("type", "nic")])] = false ∧
    specNICNames [("volatile.eth0.name", "net1"), ("volatile.eth1.name", "net2")]
        [("eth0", [("type", "nic")])] = ["net1"] ∧
    specNICNames [("volatile.eth0.name", "net1"), ("volatile.eth1.name", "net2")]
        [("eth1", [("type", "nic")])] = ["net2"] ∧
    getNICNames [("volatile.eth0.name", "net1"), ("volatile.eth1.name", "net2")]
        [("eth0", [("type", "nic")])] = [""] ∧
    getNICNames [("volatile.eth0.name", "net1"), ("volatile.eth1.name", "net2")]
        [("eth1", [("type", "nic")])] = [""] :=
  ⟨rfl, rfl, rfl, rfl, rfl⟩

/-- Witness for C5 at a concrete two-rule ruleset. -/
theorem validateConfig_noDuplicates_witness :
    ([⟨"allow", "", "", "", "", "", "", "", "", "enabled"⟩,
      ⟨"drop", "", "", "", "", "", "", "", "", "enabled"⟩].map normaliseRule).get
        ⟨0, by decide⟩ ≠
    ([⟨"allow", "", "", "", "", "", "", "", "", "enabled"⟩,
      ⟨"drop", "", "", "", "", "", "", "", "", "enabled"⟩].map normaliseRule).get
        ⟨1, by decide⟩ :=
  (validateConfig_noDuplicates ⟨[], []⟩ []
    [⟨"allow", "", "", "", "", "", "", "", "", "enabled"⟩,
      ⟨"drop", "", "", "", "", "", "", "", "", "enabled"⟩] [] rfl).1 0 1
    (by decide) (by decide) (by decide)

end Incus
